import Mathlib

/-!
Verification development for the tradebot repository.

Shallow embedding of the core data model and operations:
  * `Candle`, `CandleSeries` (core.py: the per-timeframe ring buffer),
  * `poll_once` (data.py: `DataFeed.poll_once`, single configured interval),
  * the startup priming / post-reference backfill (tradebot.py `main`),
  * `verify_last5_and_fix` (tradebot.py: the reconciliation verifier),
  * `Engine` with `on_new_close` / `on_live_price` / `_enter` /
    `_manage_position` / `_exit` (strategies.py: `BreakoutStrategy`).

Prices, volumes and vwap values (Python `Decimal`) are modelled as `ℚ`;
timestamps (UTC datetimes, second precision via `.timestamp()`) as `Int`;
trade counts (Python `int`) as `Int`.  The journal side effects of the
strategy (`Journal.log_entry` / `Journal.log_exit`) are modelled as lists
carried in the engine state, so that entry/exit events are observable.
-/

/-- A candle record: core.py `Candle` (time, open, high, low, close,
volume, vwap, trades).  `open` is a Lean keyword, hence the field name
`open_`. -/
structure Candle where
  time : Int
  open_ : ℚ
  high : ℚ
  low : ℚ
  close : ℚ
  volume : ℚ
  vwap : ℚ
  trades : Int
deriving DecidableEq, Repr

/-- Default candle used only as the out-of-range default of `List.getD`
(Python indexing `s1.times[idx]` is always in range in the verifier). -/
def dfltCandle : Candle := ⟨0, 0, 0, 0, 0, 0, 0, 0⟩

/-- core.py `CandleSeries`: parallel deques with `maxlen = capacity`.  The
parallel deques always have equal length, so they are modelled as one list
of records, oldest first. -/
structure CandleSeries where
  capacity : Nat
  data : List Candle
deriving DecidableEq, Repr

/-- core.py `CandleSeries.append`: unconditionally pushes to the tail;
a deque with `maxlen` evicts from the front when full (keep the last
`capacity` elements). -/
def CandleSeries.append (s : CandleSeries) (c : Candle) : CandleSeries :=
  let d := s.data ++ [c]
  ⟨s.capacity, d.drop (d.length - s.capacity)⟩

/-- core.py `CandleSeries.last_time`: `times[-1] if times else None`. -/
def CandleSeries.lastTime (s : CandleSeries) : Option Int :=
  s.data.getLast?.map (fun c => c.time)

/-- The stored series is strictly increasing by timestamp. -/
def timesIncreasing (s : CandleSeries) : Prop :=
  s.data.Pairwise (fun a b => a.time < b.time)

/-- data.py `DataFeed` state for the single configured interval: the
store's series and the watermark `_last_ts` (an optional unix second). -/
structure FeedState where
  series : CandleSeries
  last_ts : Option Int
deriving DecidableEq, Repr

/-- The "closed/valid" filter of data.py `poll_once`:
`(c.time < now_min) and (c.trades > 0) and (c.volume > 0)`. -/
def safeFilter (now_min : Int) (l : List Candle) : List Candle :=
  l.filter (fun c => decide (c.time < now_min) && decide (0 < c.trades) && decide (0 < c.volume))

/-- The append loop of data.py `poll_once`:
`for c in safe: if (last_time is None) or (c.time > last_time): append; last_time = c.time`. -/
def pollLoop : List Candle → CandleSeries → Option Int → CandleSeries × Option Int
  | [], s, lt => (s, lt)
  | c :: rest, s, none => pollLoop rest (s.append c) (some c.time)
  | c :: rest, s, some t =>
    if t < c.time then pollLoop rest (s.append c) (some c.time)
    else pollLoop rest s (some t)

/-- data.py `DataFeed.poll_once` for the single configured interval.  The
upstream fetch result and the current wall-clock minute are parameters.
After the loop, `if last_time: self._last_ts[tf] = int(last_time.timestamp())`
(a datetime is always truthy, `None` is falsy). -/
def poll_once (fetched : List Candle) (now_min : Int) (st : FeedState) : FeedState :=
  let safe := safeFilter now_min fetched
  let r := pollLoop safe st.series st.series.lastTime
  ⟨r.1, match r.2 with | some t => some t | none => st.last_ts⟩

/-- Specification-side companion of `pollLoop`: the sublist of records the
loop accepts (appends), given the running last-seen time. -/
def acceptedList : List Candle → Option Int → List Candle
  | [], _ => []
  | c :: rest, none => c :: acceptedList rest (some c.time)
  | c :: rest, some t =>
    if t < c.time then c :: acceptedList rest (some c.time)
    else acceptedList rest (some t)

/-- tradebot.py `main`, priming selection:
`[c for c in client.get_ohlc(...) if c.time <= eff_ref_utc][-10:]`. -/
def primeSelect (fetched : List Candle) (eff_ref : Int) : List Candle :=
  let l := fetched.filter (fun c => decide (c.time ≤ eff_ref))
  l.drop (l.length - 10)

/-- tradebot.py `main`, priming: `for c in primed: store.append("1m", c)`. -/
def mainPrime (fetched : List Candle) (eff_ref : Int) (s : CandleSeries) : CandleSeries :=
  (primeSelect fetched eff_ref).foldl CandleSeries.append s

/-- tradebot.py `main`, post-reference backfill selection:
`[c for c in client.get_ohlc(...) if c.time > post_since]`. -/
def postSelect (fetched : List Candle) (post_since : Int) : List Candle :=
  fetched.filter (fun c => decide (post_since < c.time))

/-- tradebot.py `main`, backfill: `for c in post: store.append("1m", c)`. -/
def mainBackfill (fetched : List Candle) (post_since : Int) (s : CandleSeries) : CandleSeries :=
  (postSelect fetched post_since).foldl CandleSeries.append s

/-- tradebot.py `verify_last5_and_fix`, field comparison:
`_neq(a, b): abs(float(a) - float(b)) > 1e-9` (floats modelled exactly in ℚ). -/
def neqQ (a b : ℚ) : Bool :=
  decide ((1 : ℚ) / 1000000000 < |a - b|)

/-- tradebot.py `verify_last5_and_fix`, per-slot mismatch test: timestamp,
open, high, low, close and volume with tolerance, trade-count exactly
(vwap is not part of the comparison in the source). -/
def mismatchB (stored a : Candle) : Bool :=
  neqQ (stored.time : ℚ) (a.time : ℚ) ||
  neqQ stored.open_ a.open_ ||
  neqQ stored.high a.high ||
  neqQ stored.low a.low ||
  neqQ stored.close a.close ||
  neqQ stored.volume a.volume ||
  decide (stored.trades ≠ a.trades)

/-- tradebot.py `verify_last5_and_fix`, fetch post-processing:
filter to closed/valid rows, then `fetched[-5:]`. -/
def fetchedWindow (fetchedAll : List Candle) (now_min : Int) : List Candle :=
  let l := safeFilter now_min fetchedAll
  l.drop (l.length - 5)

/-- tradebot.py `verify_last5_and_fix`, flagged slots:
`idxs = range(len-5, len)`; `for i, idx in enumerate(idxs): a = fetched[i]`;
keep the `(idx, a)` pairs whose stored slot mismatches. -/
def mismatchPairs (s : CandleSeries) (fetched : List Candle) : List (Nat × Candle) :=
  (((List.range' (s.data.length - 5) 5).zip fetched).filter
    (fun pr => mismatchB (s.data.getD pr.1 dfltCandle) pr.2))

/-- tradebot.py `verify_last5_and_fix`: compare the last five stored slots
against the last five fetched closed rows and overwrite every field of each
mismatching slot (opens, highs, lows, closes, vols, vwaps, trades, times)
with the fetched record's values.  The CSV audit write is external
persistence and is not modelled. -/
def verify_last5_and_fix (fetchedAll : List Candle) (now_min : Int) (s : CandleSeries) :
    CandleSeries :=
  if s.data.length < 5 ∨ (fetchedWindow fetchedAll now_min).length < 5 then s
  else ⟨s.capacity,
        (mismatchPairs s (fetchedWindow fetchedAll now_min)).foldl
          (fun d pr => d.set pr.1 pr.2) s.data⟩

/-- strategies.py `Position`. -/
structure Position where
  side : String
  entry : ℚ
  stop : ℚ
  target : ℚ
  capital : ℚ
  opened_at : Int
  exit_price : Option ℚ := none
  closed_at : Option Int := none
  outcome : Option String := none
deriving DecidableEq, Repr

/-- strategies.py module constants (the "EDIT HERE" block). -/
def MAX_CONCURRENT_POS : Int := 1

/-- strategies.py `TRADE_CAPITAL = Decimal("100")`. -/
def TRADE_CAPITAL : ℚ := 100

/-- strategies.py `RISK_REWARD = Decimal("2")`. -/
def RISK_REWARD : ℚ := 2

/-- strategies.py `RISK_STEP_STR = "0.001"`. -/
def RISK_STEP : ℚ := 1 / 1000

/-- strategies.py `PRIORITIZE_STOP_ON_TIE = True` (configurable tie-break). -/
def PRIORITIZE_STOP_ON_TIE : Bool := true

/-- strategies.py `BreakoutStrategy` state.  The journal rows written by
`Journal.log_entry` / `Journal.log_exit` are carried as lists so that the
engine's emitted events are observable; UI calls are ignored. -/
structure Engine where
  ref_utc : Int
  blue_high : Option ℚ
  blue_low : Option ℚ
  active : Option Position
  max_positions : Int
  risk_step : ℚ
  rr : ℚ
  capital : ℚ
  journalEntries : List (Position × String)
  journalExits : List Position
deriving DecidableEq, Repr

/-- strategies.py `BreakoutStrategy.__init__`. -/
def mkEngine (ref_utc : Int) : Engine :=
  ⟨ref_utc, none, none, none, MAX_CONCURRENT_POS, RISK_STEP, RISK_REWARD,
   TRADE_CAPITAL, [], []⟩

/-- strategies.py `BreakoutStrategy.set_blue`. -/
def Engine.set_blue (e : Engine) (hi lo : ℚ) : Engine :=
  { e with blue_high := some hi, blue_low := some lo }

/-- strategies.py `Journal.log_entry` note: `("entered " + note).strip()`. -/
def entryNote (note : String) : String :=
  if note = "" then "entered" else "entered " ++ note

/-- strategies.py `BreakoutStrategy._exit`: guard on an absent position,
record exit price / outcome / close time, log the exit, clear `active`. -/
def Engine.exitPos (e : Engine) (outcome : String) (price : ℚ) (ts : Int) : Engine :=
  match e.active with
  | none => e
  | some p =>
    let p' := { p with exit_price := some price, outcome := some outcome,
                       closed_at := some ts }
    { e with active := none, journalExits := e.journalExits ++ [p'] }

/-- strategies.py `BreakoutStrategy._enter`: no-op while a position is
active or when `max_positions < 1`; otherwise compute stop/target from the
risk step and risk/reward, set `active` and log the entry. -/
def Engine.enter (e : Engine) (side : String) (price : ℚ) (ts : Int) (note : String) :
    Engine :=
  if e.active.isSome then e
  else if e.max_positions < 1 then e
  else
    let entry := price
    let stop := if side = "long" then entry - e.risk_step else entry + e.risk_step
    let target := if side = "long" then entry + e.rr * e.risk_step
                  else entry - e.rr * e.risk_step
    let p : Position :=
      ⟨side, entry, stop, target, e.capital, ts, none, none, none⟩
    { e with active := some p,
             journalEntries := e.journalEntries ++ [(p, entryNote note)] }

/-- strategies.py `BreakoutStrategy._manage_position`, with the
`PRIORITIZE_STOP_ON_TIE` module constant as an explicit parameter `prio`
(it is a configuration knob in the source). -/
def Engine.managePosition (prio : Bool) (e : Engine) (c : Candle) : Engine :=
  match e.active with
  | none => e
  | some p =>
    let hit_stop := if p.side = "long" then c.low ≤ p.stop else c.high ≥ p.stop
    let hit_target := if p.side = "long" then c.high ≥ p.target else c.low ≤ p.target
    if prio then
      if hit_stop then e.exitPos "loss" p.stop c.time
      else if hit_target then e.exitPos "win" p.target c.time
      else e
    else
      if hit_target then e.exitPos "win" p.target c.time
      else if hit_stop then e.exitPos "loss" p.stop c.time
      else e

/-- strategies.py `BreakoutStrategy.on_new_close`: reference-time gate,
blue-level gate, management while active, `max_positions` gate, then the
LONG / SHORT entry rules with OPEN taking precedence over CLOSE. -/
def Engine.on_new_close (prio : Bool) (e : Engine) (c : Candle) : Engine :=
  if c.time < e.ref_utc then e
  else
    match e.blue_high, e.blue_low with
    | some bh, some bl =>
      if e.active.isSome then e.managePosition prio c
      else if e.max_positions ≤ 0 then e
      else if c.open_ > bh ∨ c.close > bh then
        e.enter "long" (if c.open_ > bh then c.open_ else c.close) c.time
          (if c.open_ > bh then "basis=OPEN" else "basis=CLOSE")
      else if c.open_ < bl ∨ c.close < bl then
        e.enter "short" (if c.open_ < bl then c.open_ else c.close) c.time
          (if c.open_ < bl then "basis=OPEN" else "basis=CLOSE")
      else e
    | _, _ => e

/-- strategies.py `BreakoutStrategy.on_live_price`: immediate exit at the
stop or target level when the live price touches it. -/
def Engine.on_live_price (e : Engine) (price : ℚ) (ts : Int) : Engine :=
  match e.active with
  | none => e
  | some p =>
    if p.side = "long" then
      if price ≥ p.target then e.exitPos "win" p.target ts
      else if price ≤ p.stop then e.exitPos "loss" p.stop ts
      else e
    else
      if price ≤ p.target then e.exitPos "win" p.target ts
      else if price ≥ p.stop then e.exitPos "loss" p.stop ts
      else e

/-- An event delivered to the strategy: a newly closed candle
(`on_new_close`), a live tick (`on_live_price`), or the one-time blue-level
initialization (`set_blue`). -/
inductive Ev where
  | close (c : Candle)
  | tick (price : ℚ) (ts : Int)
  | setBlue (hi lo : ℚ)
deriving DecidableEq, Repr

/-- Deliver one event to the engine. -/
def stepEv (prio : Bool) (e : Engine) : Ev → Engine
  | .close c => e.on_new_close prio c
  | .tick price ts => e.on_live_price price ts
  | .setBlue hi lo => e.set_blue hi lo

/-- Deliver a sequence of events to the engine. -/
def runEv (prio : Bool) (e : Engine) (evs : List Ev) : Engine :=
  evs.foldl (stepEv prio) e

/-- The number of positions the engine currently holds open: the number of
logged entries minus the number of logged exits, witnessed by `active`. -/
def openBalanced (e : Engine) : Prop :=
  e.journalEntries.length =
    e.journalExits.length + (if e.active.isSome then 1 else 0)

-- FIXTURES --

/-- A concrete long position used by test witnesses. -/
def posA : Position := ⟨"long", 8, 7, 10, 100, 0, none, none, none⟩

/-- A concrete engine holding `posA`, blue levels 10/5, reference time 0. -/
def engC1 : Engine := ⟨0, some 10, some 5, some posA, 1, 1, 2, 100, [], []⟩

/-- A concrete candle closing above the blue high of `engC1`. -/
def candA : Candle := ⟨60, 11, 12, 6, 11, 1, 1, 1⟩

/-- A concrete candle with timestamp 5. -/
def cT5 : Candle := ⟨5, 1, 1, 1, 1, 1, 1, 1⟩

/-- A second candle with the same timestamp 5 but different prices. -/
def cT5b : Candle := ⟨5, 2, 2, 2, 2, 2, 2, 2⟩

/-- A concrete candle with timestamp 6, closed and valid relative to 100. -/
def cT6 : Candle := ⟨6, 3, 3, 3, 3, 3, 3, 3⟩

/-- A one-element series holding `cT5`, capacity 10. -/
def serC2 : CandleSeries := ⟨10, [cT5]⟩

/-- A feed state over `serC2` with an empty watermark. -/
def stC2 : FeedState := ⟨serC2, none⟩

/-- A provisional record: timestamp 100 equals the current wall-clock
minute, zero trades and zero volume. -/
def provC : Candle := ⟨100, 1, 1, 1, 1, 0, 0, 0⟩

/-- An empty series with capacity 1000 (the configured buffer). -/
def emptySer : CandleSeries := ⟨1000, []⟩

/-- A feed state with an empty store and empty watermark. -/
def stEmpty : FeedState := ⟨⟨10, []⟩, none⟩

/-- A candle with timestamp 100, used as stored content for the watermark
counterexample. -/
def cT100 : Candle := ⟨100, 1, 1, 1, 1, 1, 1, 1⟩

/-- A feed state whose store ends at time 100 but whose watermark is 50. -/
def stC9 : FeedState := ⟨⟨10, [cT100]⟩, some 50⟩

/-- The long position of the spec's entry/exit scenarios:
entry 1.060, stop 1.059, target 1.062. -/
def pSpec : Position :=
  ⟨"long", 1060 / 1000, 1059 / 1000, 1062 / 1000, 100, 0, none, none, none⟩

/-- An engine holding `pSpec`, blue levels 1.050 / 1.040, reference 0. -/
def eSpec : Engine :=
  ⟨0, some (1050 / 1000), some (1040 / 1000), some pSpec, 1, 1 / 1000, 2, 100, [], []⟩

/-- The tie-break candle of the spec: low 1.058, high 1.063. -/
def cTie : Candle :=
  ⟨60, 1060 / 1000, 1063 / 1000, 1058 / 1000, 1061 / 1000, 1, 1, 5⟩

/-- An idle engine with blue levels 1.050 / 1.040, reference 0, defaults. -/
def eIdle : Engine :=
  ⟨0, some (1050 / 1000), some (1040 / 1000), none, 1, 1 / 1000, 2, 100, [], []⟩

/-- The entry-determinism candle of the spec: open 1.060 above the upper
level 1.050. -/
def cOpen : Candle :=
  ⟨60, 1060 / 1000, 1065 / 1000, 1055 / 1000, 1061 / 1000, 1, 1, 5⟩

/-- A candle whose close (but not open) is above the upper level, used to
show the engine re-enters after a live-tick exit within the same record. -/
def cReenter : Candle :=
  ⟨60, 1045 / 1000, 1064 / 1000, 1044 / 1000, 1063 / 1000, 1, 1, 3⟩

/-- Stored verifier fixture, slot time 1. -/
def d1 : Candle := ⟨1, 10, 12, 9, 11, 2, 5, 3⟩

/-- Stored verifier fixture, slot time 2. -/
def d2 : Candle := ⟨2, 11, 13, 10, 12, 2, 5, 3⟩

/-- Stored verifier fixture, slot time 3. -/
def d3 : Candle := ⟨3, 12, 14, 11, 13, 2, 5, 3⟩

/-- Stored verifier fixture, slot time 4. -/
def d4 : Candle := ⟨4, 13, 15, 12, 14, 2, 5, 3⟩

/-- Stored verifier fixture, slot time 5, vwap 7. -/
def d5 : Candle := ⟨5, 14, 16, 13, 15, 2, 7, 3⟩

/-- Like `d5` but with vwap 9: differs from `d5` only in the vwap field. -/
def d5v : Candle := ⟨5, 14, 16, 13, 15, 2, 9, 3⟩

/-- Like `d5` but with close 20: differs from `d5` in the close field. -/
def d5c : Candle := ⟨5, 14, 16, 13, 20, 2, 7, 3⟩

/-- A five-slot stored series for the verifier fixtures. -/
def sVer : CandleSeries := ⟨10, [d1, d2, d3, d4, d5]⟩

/-- A fetch equal to the store except for `d5v`'s vwap. -/
def faVwap : List Candle := [d1, d2, d3, d4, d5v]

/-- A fetch equal to the store except for `d5c`'s close. -/
def faClose : List Candle := [d1, d2, d3, d4, d5c]

-- THEOREMS --

lemma exitPos_journalEntries (e : Engine) (o : String) (pr : ℚ) (ts : Int) :
    (e.exitPos o pr ts).journalEntries = e.journalEntries := by
  cases h : e.active <;> simp [Engine.exitPos, h]

lemma exitPos_active (e : Engine) (o : String) (pr : ℚ) (ts : Int) :
    (e.exitPos o pr ts).active = e.active ∨ (e.exitPos o pr ts).active = none := by
  cases h : e.active <;> simp [Engine.exitPos, h]

lemma manage_journalEntries (prio : Bool) (e : Engine) (c : Candle) :
    (e.managePosition prio c).journalEntries = e.journalEntries := by
  cases h : e.active with
  | none => simp [Engine.managePosition, h]
  | some p =>
    simp only [Engine.managePosition, h]
    split_ifs <;> simp [exitPos_journalEntries]

lemma manage_active (prio : Bool) (e : Engine) (c : Candle) :
    (e.managePosition prio c).active = e.active ∨
      (e.managePosition prio c).active = none := by
  cases h : e.active with
  | none => simp [Engine.managePosition, h]
  | some p =>
    simp only [Engine.managePosition, h]
    split_ifs <;> simp [Engine.exitPos, h]

lemma enter_of_active (e : Engine) (side : String) (pr : ℚ) (ts : Int)
    (note : String) (h : e.active.isSome) : e.enter side pr ts note = e := by
  unfold Engine.enter
  rw [if_pos h]

lemma on_new_close_of_active (prio : Bool) (e : Engine) (c : Candle)
    (h : e.active.isSome) :
    e.on_new_close prio c = e ∨ e.on_new_close prio c = e.managePosition prio c := by
  unfold Engine.on_new_close
  split
  · exact Or.inl rfl
  · cases hbh : e.blue_high with
    | none => cases hbl : e.blue_low <;> exact Or.inl rfl
    | some bh =>
      cases hbl : e.blue_low with
      | none => exact Or.inl rfl
      | some bl =>
        simp [h]

lemma openBalanced_exitPos (e : Engine) (o : String) (pr : ℚ) (ts : Int)
    (h : openBalanced e) : openBalanced (e.exitPos o pr ts) := by
  unfold openBalanced Engine.exitPos at *
  cases hac : e.active with
  | none => simp [hac] at h ⊢; exact h
  | some p =>
    simp [hac] at h ⊢
    omega

lemma openBalanced_enter (e : Engine) (side : String) (pr : ℚ) (ts : Int)
    (note : String) (h : openBalanced e) : openBalanced (e.enter side pr ts note) := by
  unfold openBalanced Engine.enter at *
  cases hac : e.active with
  | some p => simp [hac] at h ⊢; omega
  | none =>
    simp [hac] at h ⊢
    split_ifs with hm <;> simp_all

lemma openBalanced_manage (prio : Bool) (e : Engine) (c : Candle)
    (h : openBalanced e) : openBalanced (e.managePosition prio c) := by
  cases hac : e.active with
  | none => unfold Engine.managePosition; rw [hac]; exact h
  | some p =>
    unfold Engine.managePosition
    rw [hac]
    dsimp only
    split_ifs <;>
      first
        | exact openBalanced_exitPos _ _ _ _ h
        | exact h

lemma openBalanced_on_new_close (prio : Bool) (e : Engine) (c : Candle)
    (h : openBalanced e) : openBalanced (e.on_new_close prio c) := by
  unfold Engine.on_new_close
  split
  · exact h
  · cases hbh : e.blue_high with
    | none => cases hbl : e.blue_low <;> exact h
    | some bh =>
      cases hbl : e.blue_low with
      | none => exact h
      | some bl =>
        dsimp only
        split_ifs <;>
          first
            | exact openBalanced_manage _ _ _ h
            | exact openBalanced_enter _ _ _ _ _ h
            | exact h

lemma openBalanced_on_live_price (e : Engine) (pr : ℚ) (ts : Int)
    (h : openBalanced e) : openBalanced (e.on_live_price pr ts) := by
  cases hac : e.active with
  | none => unfold Engine.on_live_price; rw [hac]; exact h
  | some p =>
    unfold Engine.on_live_price
    rw [hac]
    dsimp only
    split_ifs <;>
      first
        | exact openBalanced_exitPos _ _ _ _ h
        | exact h

lemma openBalanced_stepEv (prio : Bool) (e : Engine) (ev : Ev)
    (h : openBalanced e) : openBalanced (stepEv prio e ev) := by
  cases ev with
  | close c => exact openBalanced_on_new_close _ _ _ h
  | tick pr ts => exact openBalanced_on_live_price _ _ _ h
  | setBlue hi lo => exact h

lemma openBalanced_runEv (prio : Bool) (evs : List Ev) :
    ∀ e : Engine, openBalanced e → openBalanced (runEv prio e evs) := by
  induction evs with
  | nil => exact fun e h => h
  | cons ev rest ih =>
    intro e h
    exact ih _ (openBalanced_stepEv prio e ev h)

lemma openBalanced_mkEngine (ref : Int) : openBalanced (mkEngine ref) := by
  unfold openBalanced mkEngine
  rfl

/-- C1: at most one position is open at any time.  While a position is
active, `on_new_close` either leaves the engine unchanged (gates) or
performs exactly the stop/target management check; it logs no new entry;
the active slot can only stay the same position or become empty; `_enter`
is a no-op; and over every event sequence delivered to a freshly
constructed engine, the number of opened positions never exceeds the
number of closed positions by more than one. -/
theorem C1_at_most_one_position (prio : Bool) (e : Engine) (c : Candle)
    (side : String) (pr : ℚ) (ts : Int) (note : String) (evs : List Ev) (ref : Int)
    (h : e.active.isSome) :
    (e.on_new_close prio c = e ∨ e.on_new_close prio c = e.managePosition prio c) ∧
    (e.on_new_close prio c).journalEntries = e.journalEntries ∧
    ((e.on_new_close prio c).active = e.active ∨ (e.on_new_close prio c).active = none) ∧
    e.enter side pr ts note = e ∧
    (runEv prio (mkEngine ref) evs).journalEntries.length ≤
      (runEv prio (mkEngine ref) evs).journalExits.length + 1 := by
  refine ⟨on_new_close_of_active prio e c h, ?_, ?_, enter_of_active e side pr ts note h, ?_⟩
  · rcases on_new_close_of_active prio e c h with h1 | h1 <;> rw [h1]
    · exact manage_journalEntries prio e c
  · rcases on_new_close_of_active prio e c h with h1 | h1 <;> rw [h1]
    · exact Or.inl rfl
    · exact manage_active prio e c
  · have hb := openBalanced_runEv prio evs (mkEngine ref) (openBalanced_mkEngine ref)
    unfold openBalanced at hb
    cases h2 : (runEv prio (mkEngine ref) evs).active.isSome <;> simp [h2] at hb <;> omega

lemma mem_of_mem_append_series (s : CandleSeries) (c : Candle) (x : Candle)
    (h : x ∈ (s.append c).data) : x ∈ s.data ∨ x = c := by
  unfold CandleSeries.append at h
  have h2 := List.drop_subset _ _ h
  rcases List.mem_append.mp h2 with h3 | h3
  · exact Or.inl h3
  · exact Or.inr (List.mem_singleton.mp h3)

lemma timesIncreasing_append (s : CandleSeries) (c : Candle)
    (hs : timesIncreasing s) (hb : ∀ x ∈ s.data, x.time < c.time) :
    timesIncreasing (s.append c) := by
  unfold timesIncreasing CandleSeries.append at *
  refine List.Pairwise.sublist (List.drop_sublist _ _) ?_
  rw [List.pairwise_append]
  refine ⟨hs, List.pairwise_singleton _ _, ?_⟩
  intro a ha b hb2
  rw [List.mem_singleton] at hb2
  subst hb2
  exact hb a ha

lemma pairwise_le_getLast :
    ∀ (l : List Candle), l.Pairwise (fun a b => a.time < b.time) →
      ∀ x ∈ l, ∀ y, l.getLast? = some y → x.time ≤ y.time := by
  intro l
  induction l with
  | nil => intro _ x hx; simp at hx
  | cons a l ih =>
    intro hp x hx y hy
    cases l with
    | nil =>
      simp at hx hy
      subst hx
      subst hy
      exact le_refl _
    | cons b l2 =>
      rw [List.getLast?_cons_cons] at hy
      have hyMem : y ∈ b :: l2 := by
        have := List.mem_getLast?_eq_getLast (Option.mem_def.mpr hy)
        rcases this with ⟨hne, hEq⟩
        rw [hEq]
        exact List.getLast_mem hne
      rcases List.mem_cons.mp hx with hxa | hxl
      · subst hxa
        exact le_of_lt ((List.pairwise_cons.mp hp).1 y hyMem)
      · exact ih (List.pairwise_cons.mp hp).2 x hxl y hy

lemma pollLoop_inc (l : List Candle) :
    ∀ (s : CandleSeries) (lt : Option Int),
      timesIncreasing s →
      (∀ x ∈ s.data, ∀ t, lt = some t → x.time ≤ t) →
      (lt = none → s.data = []) →
      timesIncreasing (pollLoop l s lt).1 := by
  induction l with
  | nil => intro s lt hs _ _; exact hs
  | cons c rest ih =>
    intro s lt hs hbound hnone
    cases lt with
    | none =>
      have hempty : s.data = [] := hnone rfl
      rw [pollLoop]
      refine ih (s.append c) (some c.time) ?_ ?_ ?_
      · exact timesIncreasing_append s c hs (by rw [hempty]; intro x hx; simp at hx)
      · intro x hx t ht
        injection ht with ht
        subst ht
        rcases mem_of_mem_append_series s c x hx with h1 | h1
        · rw [hempty] at h1; simp at h1
        · rw [h1]
      · intro h; cases h
    | some t =>
      rw [pollLoop]
      by_cases hlt : t < c.time
      · rw [if_pos hlt]
        refine ih (s.append c) (some c.time) ?_ ?_ ?_
        · refine timesIncreasing_append s c hs ?_
          intro x hx
          exact lt_of_le_of_lt (hbound x hx t rfl) hlt
        · intro x hx t2 ht2
          injection ht2 with ht2
          subst ht2
          rcases mem_of_mem_append_series s c x hx with h1 | h1
          · exact le_of_lt (lt_of_le_of_lt (hbound x h1 t rfl) hlt)
          · rw [h1]
        · intro h; cases h
      · rw [if_neg hlt]
        refine ih s (some t) hs ?_ ?_
        · intro x hx t2 ht2
          injection ht2 with ht2
          subst ht2
          exact hbound x hx _ rfl
        · intro h; cases h

/-- C2 counterexample: `CandleSeries.append` does not reject a record whose
timestamp equals the last stored timestamp — it appends it, growing the
series and breaking strict timestamp monotonicity. -/
theorem C2_counterexample :
    serC2.lastTime = some 5 ∧ cT5b.time ≤ 5 ∧
    (serC2.append cT5b).data = [cT5, cT5b] ∧
    ¬ timesIncreasing (serC2.append cT5b) := by
  refine ⟨rfl, by decide, rfl, ?_⟩
  intro hinc
  unfold timesIncreasing at hinc
  have : (serC2.append cT5b).data = [cT5, cT5b] := rfl
  rw [this] at hinc
  have h5 := (List.pairwise_cons.mp hinc).1 cT5b (by simp)
  simp [cT5, cT5b] at h5

/-- C2 amended: `append` itself performs no timestamp check; the poll path
is what skips records whose timestamp is not strictly greater than the
store's last timestamp, so `poll_once` preserves strict timestamp
monotonicity of the stored series. -/
theorem C2_amended_poll_preserves_monotonic (fetched : List Candle) (now_min : Int)
    (st : FeedState) (h : timesIncreasing st.series) :
    timesIncreasing (poll_once fetched now_min st).series := by
  unfold poll_once
  refine pollLoop_inc _ _ _ h ?_ ?_
  · intro x hx t ht
    unfold CandleSeries.lastTime at ht
    rcases Option.map_eq_some'.mp ht with ⟨y, hy, hyt⟩
    subst hyt
    exact pairwise_le_getLast _ h x hx y hy
  · intro hnone
    unfold CandleSeries.lastTime at hnone
    rcases hg : st.series.data.getLast? with _ | y
    · exact List.getLast?_eq_none_iff.mp hg
    · rw [hg] at hnone; simp at hnone

/-- Witness for the amended C2 at a concrete sorted store and fetch. -/
theorem C2_amended_poll_preserves_monotonic_witness :
    timesIncreasing stC2.series ∧ timesIncreasing (poll_once [cT6] 100 stC2).series := by
  have h0 : timesIncreasing stC2.series := by
    unfold timesIncreasing stC2 serC2
    simp
  exact ⟨h0, C2_amended_poll_preserves_monotonic [cT6] 100 stC2 h0⟩

lemma pollLoop_mem (l : List Candle) :
    ∀ (s : CandleSeries) (lt : Option Int) (x : Candle),
      x ∈ (pollLoop l s lt).1.data → x ∈ s.data ∨ x ∈ l := by
  induction l with
  | nil => intro s lt x h; exact Or.inl h
  | cons c rest ih =>
    intro s lt x h
    have step : ∀ s2 lt2, x ∈ (pollLoop rest s2 lt2).1.data →
        x ∈ s2.data ∨ x ∈ c :: rest := by
      intro s2 lt2 h2
      rcases ih s2 lt2 x h2 with h3 | h3
      · exact Or.inl h3
      · exact Or.inr (List.mem_cons_of_mem c h3)
    cases lt with
    | none =>
      rw [pollLoop] at h
      rcases step _ _ h with h1 | h1
      · rcases mem_of_mem_append_series s c x h1 with h2 | h2
        · exact Or.inl h2
        · exact Or.inr (by rw [h2]; exact List.mem_cons_self c rest)
      · exact Or.inr h1
    | some t =>
      rw [pollLoop] at h
      by_cases hlt : t < c.time
      · rw [if_pos hlt] at h
        rcases step _ _ h with h1 | h1
        · rcases mem_of_mem_append_series s c x h1 with h2 | h2
          · exact Or.inl h2
          · exact Or.inr (by rw [h2]; exact List.mem_cons_self c rest)
        · exact Or.inr h1
      · rw [if_neg hlt] at h
        exact step _ _ h

/-- C3 counterexample: with the reference minute equal to the current
wall-clock minute (100), both startup ingestion paths of `main` store the
provisional in-progress record `provC` (timestamp not strictly before the
current minute, zero trades, zero volume): priming filters only on
`time ≤ eff_ref`, backfill only on `time > post_since`. -/
theorem C3_counterexample :
    min (100 : Int) 100 = 100 ∧
    (mainPrime [provC] (min (100 : Int) 100) emptySer).data = [provC] ∧
    (mainBackfill [provC] 50 emptySer).data = [provC] ∧
    ¬ (provC.time < 100 ∧ 0 < provC.trades ∧ 0 < provC.volume) := by
  exact ⟨rfl, rfl, rfl, by decide⟩

/-- C3 amended: the periodic poll path never stores a provisional record —
every record present after `poll_once` was either already stored or is
closed/valid relative to the current wall-clock minute.  The startup
priming/backfill paths do not share this guarantee (see the
counterexample). -/
theorem C3_poll_stores_only_closed_valid (fetched : List Candle) (now_min : Int)
    (st : FeedState) (c : Candle)
    (h : c ∈ (poll_once fetched now_min st).series.data) :
    c ∈ st.series.data ∨ (c.time < now_min ∧ 0 < c.trades ∧ 0 < c.volume) := by
  unfold poll_once at h
  rcases pollLoop_mem _ _ _ _ h with h1 | h1
  · exact Or.inl h1
  · right
    unfold safeFilter at h1
    have h2 := List.of_mem_filter h1
    simp at h2
    exact ⟨h2.1.1, h2.1.2, h2.2⟩

/-- Witness for the amended C3 at a concrete empty store. -/
theorem C3_poll_stores_only_closed_valid_witness :
    cT5 ∈ stEmpty.series.data ∨ (cT5.time < 100 ∧ 0 < cT5.trades ∧ 0 < cT5.volume) :=
  C3_poll_stores_only_closed_valid [cT5] 100 stEmpty cT5
    (by rw [(rfl : (poll_once [cT5] 100 stEmpty).series.data = [cT5])]; exact List.mem_singleton.mpr rfl)

lemma pollLoop_no_new (l : List Candle) :
    ∀ (s : CandleSeries) (t : Int), (∀ c ∈ l, c.time ≤ t) →
      pollLoop l s (some t) = (s, some t) := by
  induction l with
  | nil => intro s t _; rfl
  | cons c rest ih =>
    intro s t h
    rw [pollLoop]
    rw [if_neg (not_lt.mpr (h c (List.mem_cons_self c rest)))]
    exact ih s t (fun d hd => h d (List.mem_cons_of_mem c hd))

lemma poll_once_no_new (f : List Candle) (n : Int) (st : FeedState) (t : Int)
    (hlast : st.series.lastTime = some t) (hf : ∀ c ∈ f, c.time ≤ t) :
    poll_once f n st = ⟨st.series, some t⟩ := by
  have hall : ∀ c ∈ safeFilter n f, c.time ≤ t :=
    fun c hc => hf c (List.mem_of_mem_filter hc)
  unfold poll_once
  show (⟨(pollLoop (safeFilter n f) st.series st.series.lastTime).1,
        match (pollLoop (safeFilter n f) st.series st.series.lastTime).2 with
        | some u => some u
        | none => st.last_ts⟩ : FeedState) = _
  rw [hlast, pollLoop_no_new _ _ _ hall]

lemma poll_once_empty_store (f : List Candle) (n : Int) (st : FeedState)
    (hlast : st.series.lastTime = none) (hf : safeFilter n f = []) :
    poll_once f n st = st := by
  unfold poll_once
  show (⟨(pollLoop (safeFilter n f) st.series st.series.lastTime).1,
        match (pollLoop (safeFilter n f) st.series st.series.lastTime).2 with
        | some u => some u
        | none => st.last_ts⟩ : FeedState) = _
  rw [hf, hlast]
  rfl

/-- C4: `poll_once` is idempotent when the upstream fetch returns no
records newer than the already-stored data — the second call changes
neither the store contents nor the watermark. -/
theorem C4_poll_once_idempotent (f1 f2 : List Candle) (n1 n2 : Int) (st : FeedState)
    (h1 : ∀ c ∈ f1, ∃ t, st.series.lastTime = some t ∧ c.time ≤ t)
    (h2 : ∀ c ∈ f2, ∃ t, st.series.lastTime = some t ∧ c.time ≤ t) :
    poll_once f2 n2 (poll_once f1 n1 st) = poll_once f1 n1 st := by
  cases hlast : st.series.lastTime with
  | none =>
    have hnil : ∀ (f : List Candle),
        (∀ c ∈ f, ∃ t, st.series.lastTime = some t ∧ c.time ≤ t) →
        ∀ n : Int, safeFilter n f = [] := by
      intro f hf n
      cases hsafe : safeFilter n f with
      | nil => rfl
      | cons c rest =>
        have hc : c ∈ safeFilter n f := by rw [hsafe]; exact List.mem_cons_self c rest
        rcases hf c (List.mem_of_mem_filter hc) with ⟨t, ht, _⟩
        rw [hlast] at ht
        cases ht
    rw [poll_once_empty_store f1 n1 st hlast (hnil f1 h1 n1)]
    exact poll_once_empty_store f2 n2 st hlast (hnil f2 h2 n2)
  | some t =>
    have hle : ∀ (f : List Candle),
        (∀ c ∈ f, ∃ u, st.series.lastTime = some u ∧ c.time ≤ u) →
        ∀ c ∈ f, c.time ≤ t := by
      intro f hf c hc
      rcases hf c hc with ⟨u, hu, hcu⟩
      rw [hlast] at hu
      injection hu with hu
      rw [hu]
      exact hcu
    rw [poll_once_no_new f1 n1 st t hlast (hle f1 h1)]
    have hlast2 : (⟨st.series, some t⟩ : FeedState).series.lastTime = some t := hlast
    exact poll_once_no_new f2 n2 ⟨st.series, some t⟩ t hlast2 (hle f2 h2)

/-- Witness for C4 at a concrete store already containing the fetch. -/
theorem C4_poll_once_idempotent_witness :
    poll_once [] 100 (poll_once [cT5] 100 stC2) = poll_once [cT5] 100 stC2 :=
  C4_poll_once_idempotent [cT5] [] 100 100 stC2
    (by
      intro c hc
      rw [List.mem_singleton] at hc
      subst hc
      exact ⟨5, rfl, by decide⟩)
    (by intro c hc; cases hc)

/-- C9 counterexample: a `poll_once` call that accepts no record (empty
fetch) still rewrites the watermark to the store's last stored timestamp —
it is not left unchanged. -/
theorem C9_counterexample :
    (poll_once [] 200 stC9).series = stC9.series ∧
    stC9.last_ts = some 50 ∧
    (poll_once [] 200 stC9).last_ts = some 100 :=
  ⟨rfl, rfl, rfl⟩

lemma getLast?_cons_match {α : Type} (a : α) (l : List α) :
    (a :: l).getLast? = (match l.getLast? with
                         | some b => some b
                         | none => some a) := by
  cases l with
  | nil => rfl
  | cons b m =>
    rw [List.getLast?_cons_cons]
    rw [List.getLast?_eq_getLast_of_ne_nil (l := b :: m) (by simp)]

lemma pollLoop_snd (l : List Candle) :
    ∀ (s : CandleSeries) (lt : Option Int),
      (pollLoop l s lt).2 = (match (acceptedList l lt).getLast? with
                             | some c => some c.time
                             | none => lt) := by
  induction l with
  | nil => intro s lt; rfl
  | cons c rest ih =>
    intro s lt
    cases lt with
    | none =>
      rw [pollLoop, acceptedList, ih, getLast?_cons_match]
      cases (acceptedList rest (some c.time)).getLast? <;> rfl
    | some t =>
      by_cases hlt : t < c.time
      · rw [pollLoop, if_pos hlt, acceptedList, if_pos hlt, ih, getLast?_cons_match]
        cases (acceptedList rest (some c.time)).getLast? <;> rfl
      · rw [pollLoop, if_neg hlt, acceptedList, if_neg hlt, ih]

/-- C9 amended: after `poll_once` the watermark equals the newest accepted
record's timestamp when at least one record was accepted in the call; when
none was accepted it is set to the store's pre-call last stored timestamp
(changing the watermark whenever that differs); only when the store is
also empty is the watermark left unchanged. -/
theorem C9_watermark_update (fetched : List Candle) (now_min : Int) (st : FeedState) :
    (poll_once fetched now_min st).last_ts =
      (match (acceptedList (safeFilter now_min fetched) st.series.lastTime).getLast? with
       | some c => some c.time
       | none => match st.series.lastTime with
                 | some t => some t
                 | none => st.last_ts) := by
  unfold poll_once
  show (match (pollLoop (safeFilter now_min fetched) st.series st.series.lastTime).2 with
        | some t => some t
        | none => st.last_ts) = _
  rw [pollLoop_snd]
  cases (acceptedList (safeFilter now_min fetched) st.series.lastTime).getLast? with
  | none => cases st.series.lastTime <;> rfl
  | some c => rfl

/-- Witness for C1 at a concrete active engine, candle and event list. -/
theorem C1_at_most_one_position_witness :
    (engC1.on_new_close true candA = engC1 ∨
      engC1.on_new_close true candA = engC1.managePosition true candA) ∧
    (engC1.on_new_close true candA).journalEntries = engC1.journalEntries ∧
    ((engC1.on_new_close true candA).active = engC1.active ∨
      (engC1.on_new_close true candA).active = none) ∧
    engC1.enter "long" 9 3 "" = engC1 ∧
    (runEv true (mkEngine 0) []).journalEntries.length ≤
      (runEv true (mkEngine 0) []).journalExits.length + 1 :=
  C1_at_most_one_position true engC1 candA "long" 9 3 "" [] 0 rfl


/-- C7: exit tie-break on a single record.  With an active long position
(stop 1.059, target 1.062) and a closed record touching both (low 1.058,
high 1.063), the engine resolves to exactly one outcome: a loss at 1.059
under stop-priority, a win at 1.062 without it; exactly one exit event is
logged and the position is cleared in either case. -/
theorem C7_exit_tie_break (e : Engine) (p : Position) (c : Candle)
    (hac : e.active = some p) (hside : p.side = "long")
    (hstop : p.stop = 1059 / 1000) (htarget : p.target = 1062 / 1000)
    (hlow : c.low = 1058 / 1000) (hhigh : c.high = 1063 / 1000) :
    e.managePosition true c = e.exitPos "loss" (1059 / 1000) c.time ∧
    e.managePosition false c = e.exitPos "win" (1062 / 1000) c.time ∧
    (e.managePosition true c).journalExits =
      e.journalExits ++ [{ p with exit_price := some (1059 / 1000), outcome := some "loss", closed_at := some c.time }] ∧
    (e.managePosition false c).journalExits =
      e.journalExits ++ [{ p with exit_price := some (1062 / 1000), outcome := some "win", closed_at := some c.time }] ∧
    (e.managePosition true c).active = none ∧
    (e.managePosition false c).active = none := by
  refine ⟨?_, ?_, ?_, ?_, ?_, ?_⟩ <;>
    · unfold Engine.managePosition Engine.exitPos
      rw [hac]
      norm_num [hside, hstop, htarget, hlow, hhigh]

/-- Witness for C7 at the spec's concrete position and candle. -/
theorem C7_exit_tie_break_witness :
    eSpec.managePosition true cTie = eSpec.exitPos "loss" (1059 / 1000) cTie.time ∧
    eSpec.managePosition false cTie = eSpec.exitPos "win" (1062 / 1000) cTie.time ∧
    (eSpec.managePosition true cTie).journalExits =
      eSpec.journalExits ++ [{ pSpec with exit_price := some (1059 / 1000), outcome := some "loss", closed_at := some cTie.time }] ∧
    (eSpec.managePosition false cTie).journalExits =
      eSpec.journalExits ++ [{ pSpec with exit_price := some (1062 / 1000), outcome := some "win", closed_at := some cTie.time }] ∧
    (eSpec.managePosition true cTie).active = none ∧
    (eSpec.managePosition false cTie).active = none :=
  C7_exit_tie_break eSpec pSpec cTie rfl rfl rfl rfl rfl rfl

/-- C6: entry determinism.  When a closed record's open price alone
crosses the upper level (as with open 1.060 > upper 1.050), the open price
is the entry basis: the engine enters long at the open with
stop = open − riskStep and target = open + riskReward × riskStep, and the
logged entry note records basis=OPEN — the open-based trigger takes
precedence whenever it holds, regardless of the close. -/
theorem C6_entry_open_basis (prio : Bool) (e : Engine) (c : Candle) (bh bl : ℚ)
    (hac : e.active = none) (hbh : e.blue_high = some bh) (hbl : e.blue_low = some bl)
    (hmax : 1 ≤ e.max_positions) (href : e.ref_utc ≤ c.time) (hopen : bh < c.open_) :
    (e.on_new_close prio c).active =
      some ⟨"long", c.open_, c.open_ - e.risk_step, c.open_ + e.rr * e.risk_step, e.capital, c.time, none, none, none⟩ ∧
    (e.on_new_close prio c).journalEntries =
      e.journalEntries ++ [(⟨"long", c.open_, c.open_ - e.risk_step, c.open_ + e.rr * e.risk_step, e.capital, c.time, none, none, none⟩, "entered basis=OPEN")] := by
  have h1 : ¬ e.max_positions ≤ 0 := by omega
  have h2 : ¬ e.max_positions < 1 := by omega
  have h3 : ¬ c.time < e.ref_utc := not_lt.mpr href
  unfold Engine.on_new_close Engine.enter entryNote
  rw [hbh, hbl]
  simp [hac, h1, h2, h3, hopen]

/-- Witness for C6 at the spec's levels and record: upper 1.050,
lower 1.040, risk step 0.001, risk/reward 2, open 1.060; the stop and
target evaluate to 1.059 and 1.062 and the basis is OPEN. -/
theorem C6_entry_open_basis_witness :
    ((eIdle.on_new_close true cOpen).active =
      some ⟨"long", 1060 / 1000, 1060 / 1000 - 1 / 1000, 1060 / 1000 + 2 * (1 / 1000), 100, 60, none, none, none⟩) ∧
    ((eIdle.on_new_close true cOpen).journalEntries =
      [(⟨"long", 1060 / 1000, 1060 / 1000 - 1 / 1000, 1060 / 1000 + 2 * (1 / 1000), 100, 60, none, none, none⟩, "entered basis=OPEN")]) ∧
    (1060 / 1000 - 1 / 1000 : ℚ) = 1059 / 1000 ∧
    (1060 / 1000 + 2 * (1 / 1000) : ℚ) = 1062 / 1000 := by
  have h := C6_entry_open_basis true eIdle cOpen (1050 / 1000) (1040 / 1000)
    rfl rfl rfl (by norm_num [eIdle]) (by norm_num [eIdle, cOpen])
    (by norm_num [eIdle, cOpen])
  exact ⟨h.1, h.2, by norm_num, by norm_num⟩

lemma enter_journalExits (e : Engine) (side : String) (pr : ℚ) (ts : Int)
    (note : String) : (e.enter side pr ts note).journalExits = e.journalExits := by
  unfold Engine.enter
  split_ifs <;> rfl

lemma on_new_close_journalExits_of_idle (prio : Bool) (e : Engine) (c : Candle)
    (h : e.active = none) :
    (e.on_new_close prio c).journalExits = e.journalExits := by
  unfold Engine.on_new_close
  split
  · rfl
  · cases hbh : e.blue_high with
    | none => cases e.blue_low <;> rfl
    | some bh =>
      cases hbl : e.blue_low with
      | none => rfl
      | some bl =>
        simp only [h, Option.isSome_none, Bool.false_eq_true, if_false]
        split_ifs <;> first | rfl | apply enter_journalExits

/-- C5 amended: when a live tick crosses the active position's target,
`on_live_price` closes the position at the target LEVEL price (not the raw
tick price) with the tick's timestamp; the engine becomes idle, so the
subsequent close-based check for the same record performs no further exit —
though it may open a fresh position if entry conditions hold. -/
theorem C5_live_exit_at_level (prio : Bool) (e : Engine) (p : Position)
    (price : ℚ) (ts : Int) (c : Candle) (hac : e.active = some p)
    (hcross : (p.side = "long" ∧ p.target ≤ price) ∨ (p.side ≠ "long" ∧ price ≤ p.target)) :
    e.on_live_price price ts = e.exitPos "win" p.target ts ∧
    (e.on_live_price price ts).active = none ∧
    (e.on_live_price price ts).journalExits =
      e.journalExits ++ [{ p with exit_price := some p.target, outcome := some "win", closed_at := some ts }] ∧
    ((e.on_live_price price ts).on_new_close prio c).journalExits =
      (e.on_live_price price ts).journalExits := by
  have hlive : e.on_live_price price ts = e.exitPos "win" p.target ts := by
    unfold Engine.on_live_price
    rw [hac]
    rcases hcross with ⟨hside, hle⟩ | ⟨hside, hle⟩
    · simp [hside, ge_iff_le, hle]
    · simp [hside, hle]
  have hexit : (e.exitPos "win" p.target ts).active = none := by
    unfold Engine.exitPos
    rw [hac]
  refine ⟨hlive, by rw [hlive]; exact hexit, ?_, ?_⟩
  · rw [hlive]
    unfold Engine.exitPos
    rw [hac]
  · rw [hlive]
    exact on_new_close_journalExits_of_idle prio _ c hexit

/-- Witness for the amended C5: tick 1.063 crosses target 1.062 of the
active long `pSpec`; the logged exit carries the target price and the tick
timestamp, and the close-based check for the same record logs no exit. -/
theorem C5_live_exit_at_level_witness :
    eSpec.on_live_price (1063 / 1000) 10 = eSpec.exitPos "win" pSpec.target 10 ∧
    (eSpec.on_live_price (1063 / 1000) 10).active = none ∧
    (eSpec.on_live_price (1063 / 1000) 10).journalExits =
      eSpec.journalExits ++ [{ pSpec with exit_price := some pSpec.target, outcome := some "win", closed_at := some 10 }] ∧
    ((eSpec.on_live_price (1063 / 1000) 10).on_new_close true cReenter).journalExits =
      (eSpec.on_live_price (1063 / 1000) 10).journalExits :=
  C5_live_exit_at_level true eSpec pSpec (1063 / 1000) 10 cReenter rfl
    (Or.inl ⟨rfl, by norm_num [pSpec]⟩)

/-- C5 counterexample: the claim's "closed at the tick price" and
"subsequent close-based check is a no-op" both fail.  A tick at 1.063 with
target 1.062 logs an exit at 1.062 (≠ the tick price), and when the same
record then closes above the upper level the engine opens a NEW position,
so the close-based check is not a no-op. -/
theorem C5_counterexample :
    (eSpec.on_live_price (1063 / 1000) 10).journalExits =
      [{ pSpec with exit_price := some (1062 / 1000), outcome := some "win", closed_at := some 10 }] ∧
    ¬ (some (1062 / 1000 : ℚ) = some (1063 / 1000 : ℚ)) ∧
    ¬ (((eSpec.on_live_price (1063 / 1000) 10).on_new_close true cReenter).active = none) := by
  refine ⟨?_, by norm_num, ?_⟩
  · norm_num [eSpec, pSpec, Engine.on_live_price, Engine.exitPos]
  · norm_num [eSpec, pSpec, cReenter, Engine.on_live_price, Engine.exitPos,
      Engine.on_new_close, Engine.enter]
    simp

lemma range'_nodup : ∀ (n s : Nat), (List.range' s n).Nodup := by
  intro n
  induction n with
  | zero => intro s; exact List.nodup_nil
  | succ m ih =>
    intro s
    rw [List.range'_succ]
    rw [List.nodup_cons]
    refine ⟨?_, ih (s + 1)⟩
    intro hmem
    rw [List.mem_range'_1] at hmem
    omega

lemma range'_getElem? : ∀ (n s i : Nat), i < n → (List.range' s n)[i]? = some (s + i) := by
  intro n
  induction n with
  | zero => intro s i h; omega
  | succ m ih =>
    intro s i h
    rw [List.range'_succ]
    cases i with
    | zero => simp
    | succ j =>
      rw [List.getElem?_cons_succ, ih (s + 1) j (by omega)]
      have : s + 1 + j = s + (j + 1) := by omega
      rw [this]

lemma zip_getElem? {α β : Type} :
    ∀ (l1 : List α) (l2 : List β) (i : Nat),
      (l1.zip l2)[i]? = (match l1[i]?, l2[i]? with
                         | some x, some y => some (x, y)
                         | _, _ => none) := by
  intro l1
  induction l1 with
  | nil => intro l2 i; cases l2 <;> cases i <;> rfl
  | cons a l ih =>
    intro l2 i
    cases l2 with
    | nil => rw [List.zip_nil_right]; cases i <;> simp
    | cons b m =>
      cases i with
      | zero => rw [List.zip_cons_cons]; simp
      | succ j =>
        rw [List.zip_cons_cons, List.getElem?_cons_succ, List.getElem?_cons_succ,
          List.getElem?_cons_succ]
        exact ih m j

lemma foldl_set_length (ms : List (Nat × Candle)) :
    ∀ d : List Candle, (ms.foldl (fun d pr => d.set pr.1 pr.2) d).length = d.length := by
  induction ms with
  | nil => intro d; rfl
  | cons a ms ih =>
    intro d
    rw [List.foldl_cons, ih, List.length_set]

lemma foldl_set_getElem? (ms : List (Nat × Candle)) :
    ∀ (d : List Candle) (i : Nat), (ms.map Prod.fst).Nodup →
      (∀ pr ∈ ms, pr.1 < d.length) →
      (ms.foldl (fun d pr => d.set pr.1 pr.2) d)[i]? =
        (match ms.find? (fun pr => pr.1 == i) with
         | some pr => some pr.2
         | none => d[i]?) := by
  induction ms with
  | nil => intro d i _ _; rfl
  | cons a ms ih =>
    intro d i hnd hlt
    rw [List.map_cons, List.nodup_cons] at hnd
    have hlen : ∀ pr ∈ ms, pr.1 < (d.set a.1 a.2).length := by
      intro pr hpr
      rw [List.length_set]
      exact hlt pr (List.mem_cons_of_mem a hpr)
    rw [List.foldl_cons, ih (d.set a.1 a.2) i hnd.2 hlen]
    by_cases hi : a.1 = i
    · subst hi
      have hfind : ms.find? (fun pr => pr.1 == a.1) = none := by
        rw [List.find?_eq_none]
        intro x hx
        simp only [beq_iff_eq]
        intro hxx
        exact hnd.1 (hxx ▸ List.mem_map_of_mem Prod.fst hx)
      rw [hfind, List.find?_cons_of_pos _ (by simp)]
      exact List.getElem?_set_eq_of_lt a.2 (hlt a (List.mem_cons_self a ms))
    · rw [List.find?_cons_of_neg _ (by simp [hi])]
      cases hf : ms.find? (fun pr => pr.1 == i) with
      | some pr => rfl
      | none => rw [List.getElem?_set_ne hi]

lemma mismatchPairs_keys_nodup (s : CandleSeries) (fetched : List Candle)
    (hlen : 5 ≤ fetched.length) :
    ((mismatchPairs s fetched).map Prod.fst).Nodup := by
  unfold mismatchPairs
  have hzip : (((List.range' (s.data.length - 5) 5).zip fetched).map Prod.fst) =
      List.range' (s.data.length - 5) 5 :=
    List.map_fst_zip _ _ (by simpa using hlen)
  have hzipped : (((List.range' (s.data.length - 5) 5).zip fetched).map Prod.fst).Nodup := by
    rw [hzip]
    exact range'_nodup 5 _
  exact hzipped.sublist ((List.filter_sublist _).map Prod.fst)

lemma mismatchPairs_keys_bounds (s : CandleSeries) (fetched : List Candle)
    (pr : Nat × Candle) (hpr : pr ∈ mismatchPairs s fetched) :
    s.data.length - 5 ≤ pr.1 ∧ pr.1 < s.data.length - 5 + 5 := by
  unfold mismatchPairs at hpr
  have h1 := List.mem_of_mem_filter hpr
  have h2 := (List.of_mem_zip h1).1
  rw [List.mem_range'_1] at h2
  exact h2

/-- C10: the correction pass is a pointwise frame.  Capacity, length and
the ordinal position of every record are preserved; a slot flagged in the
mismatch list is overwritten wholesale with the fetched record — all
eight fields, timestamp and vwap included; every slot outside the flagged
ones keeps its original record; any flagged slot lies among the last five.
No monotonicity re-validation appears anywhere: the fetched timestamps are
installed unconditionally. -/
theorem C10_correction_frame (fa : List Candle) (now_min : Int) (s : CandleSeries)
    (i : Nat) (pr : Nat × Candle)
    (h5s : 5 ≤ s.data.length) (h5f : 5 ≤ (fetchedWindow fa now_min).length) :
    (verify_last5_and_fix fa now_min s).capacity = s.capacity ∧
    (verify_last5_and_fix fa now_min s).data.length = s.data.length ∧
    (verify_last5_and_fix fa now_min s).data[i]? =
      (match (mismatchPairs s (fetchedWindow fa now_min)).find? (fun pr2 => pr2.1 == i) with
       | some pr2 => some pr2.2
       | none => s.data[i]?) ∧
    ((mismatchPairs s (fetchedWindow fa now_min)).find? (fun pr2 => pr2.1 == i) = some pr →
      s.data.length - 5 ≤ pr.1 ∧ pr.1 < s.data.length ∧ pr.1 = i) := by
  have hcond : ¬ (s.data.length < 5 ∨ (fetchedWindow fa now_min).length < 5) := by
    push_neg
    exact ⟨h5s, h5f⟩
  have hbounds : ∀ pr2 ∈ mismatchPairs s (fetchedWindow fa now_min),
      pr2.1 < s.data.length := by
    intro pr2 hpr2
    have hb := mismatchPairs_keys_bounds s _ pr2 hpr2
    omega
  refine ⟨?_, ?_, ?_, ?_⟩
  · unfold verify_last5_and_fix
    rw [if_neg hcond]
  · unfold verify_last5_and_fix
    rw [if_neg hcond]
    exact foldl_set_length _ _
  · unfold verify_last5_and_fix
    rw [if_neg hcond]
    exact foldl_set_getElem? _ _ _ (mismatchPairs_keys_nodup s _ h5f) hbounds
  · intro hfind
    have hmem := List.mem_of_find?_eq_some hfind
    have hb := mismatchPairs_keys_bounds s _ pr hmem
    have hp := List.find?_some hfind
    simp only [beq_iff_eq] at hp
    exact ⟨hb.1, by omega, hp⟩

/-- Witness for C10 at a concrete five-slot store and a fetch differing in
the last slot's close. -/
theorem C10_correction_frame_witness :
    (verify_last5_and_fix faClose 100 sVer).capacity = sVer.capacity ∧
    (verify_last5_and_fix faClose 100 sVer).data.length = sVer.data.length ∧
    (verify_last5_and_fix faClose 100 sVer).data[4]? =
      (match (mismatchPairs sVer (fetchedWindow faClose 100)).find? (fun pr2 => pr2.1 == 4) with
       | some pr2 => some pr2.2
       | none => sVer.data[4]?) ∧
    ((mismatchPairs sVer (fetchedWindow faClose 100)).find? (fun pr2 => pr2.1 == 4) = some (4, d5c) →
      sVer.data.length - 5 ≤ (4, d5c).1 ∧ (4, d5c).1 < sVer.data.length ∧ (4, d5c).1 = 4) :=
  C10_correction_frame faClose 100 sVer 4 (4, d5c) (by decide) (by decide)

lemma mem_of_getElem?_some {α : Type} (l : List α) (i : Nat) (a : α)
    (h : l[i]? = some a) : a ∈ l := by
  rcases List.getElem?_eq_some.mp h with ⟨hlt, hEq⟩
  exact hEq ▸ List.getElem_mem _

lemma mismatchB_iff (stored a : Candle) :
    mismatchB stored a = true ↔
      ((1 : ℚ) / 1000000000 < |(stored.time : ℚ) - (a.time : ℚ)| ∨
       (1 : ℚ) / 1000000000 < |stored.open_ - a.open_| ∨
       (1 : ℚ) / 1000000000 < |stored.high - a.high| ∨
       (1 : ℚ) / 1000000000 < |stored.low - a.low| ∨
       (1 : ℚ) / 1000000000 < |stored.close - a.close| ∨
       (1 : ℚ) / 1000000000 < |stored.volume - a.volume| ∨
       stored.trades ≠ a.trades) := by
  simp [mismatchB, neqQ, or_assoc]

lemma find?_filter_key (q : Nat × Candle → Bool) :
    ∀ (pairs : List (Nat × Candle)) (idx : Nat) (a : Candle),
      (pairs.map Prod.fst).Nodup → (idx, a) ∈ pairs →
      (pairs.filter q).find? (fun pr => pr.1 == idx) =
        (if q (idx, a) then some (idx, a) else none) := by
  intro pairs
  induction pairs with
  | nil => intro idx a _ hmem; cases hmem
  | cons h rest ih =>
    intro idx a hnd hmem
    rw [List.map_cons, List.nodup_cons] at hnd
    rcases List.mem_cons.mp hmem with heq | hmem2
    · subst heq
      rw [List.filter_cons]
      by_cases hq : q (idx, a)
      · rw [if_pos hq, if_pos hq, List.find?_cons_of_pos _ (by simp)]
      · rw [if_neg hq, if_neg hq, List.find?_eq_none]
        intro x hx hpx
        rw [beq_iff_eq] at hpx
        have hx2 : x ∈ rest := List.mem_of_mem_filter hx
        refine hnd.1 ?_
        rw [← hpx]
        exact List.mem_map.mpr ⟨x, hx2, rfl⟩
    · have hne : h.1 ≠ idx := by
        intro hEq
        refine hnd.1 ?_
        rw [hEq]
        exact List.mem_map_of_mem Prod.fst hmem2
      rw [List.filter_cons]
      by_cases hq : q h
      · rw [if_pos hq, List.find?_cons_of_neg _ (by simp [hne])]
        exact ih idx a hnd.2 hmem2
      · rw [if_neg hq]
        exact ih idx a hnd.2 hmem2

/-- C8 amended: the verifier's mismatch test compares the timestamp and
the numeric fields open, high, low, close and volume using the 1e-9
tolerance, and the trade-count exactly; the vwap field is NOT compared.
The i-th of the last five stored slots is replaced by the corresponding
fetched record exactly when one of those compared fields differs beyond
the tolerance or the trade counts differ, and is kept otherwise —
irrespective of any vwap difference. -/
theorem C8_mismatch_comparison (fa : List Candle) (now_min : Int) (s : CandleSeries)
    (i : Nat) (a stored : Candle)
    (h5s : 5 ≤ s.data.length) (h5f : 5 ≤ (fetchedWindow fa now_min).length)
    (hi : i < 5) (ha : (fetchedWindow fa now_min)[i]? = some a)
    (hs : s.data[s.data.length - 5 + i]? = some stored) :
    (verify_last5_and_fix fa now_min s).data[s.data.length - 5 + i]? =
      some (if ((1 : ℚ) / 1000000000 < |(stored.time : ℚ) - (a.time : ℚ)| ∨
                (1 : ℚ) / 1000000000 < |stored.open_ - a.open_| ∨
                (1 : ℚ) / 1000000000 < |stored.high - a.high| ∨
                (1 : ℚ) / 1000000000 < |stored.low - a.low| ∨
                (1 : ℚ) / 1000000000 < |stored.close - a.close| ∨
                (1 : ℚ) / 1000000000 < |stored.volume - a.volume| ∨
                stored.trades ≠ a.trades)
            then a else stored) := by
  have hcond : ¬ (s.data.length < 5 ∨ (fetchedWindow fa now_min).length < 5) := by
    push_neg
    exact ⟨h5s, h5f⟩
  have hpair : ((List.range' (s.data.length - 5) 5).zip (fetchedWindow fa now_min))[i]? =
      some (s.data.length - 5 + i, a) := by
    rw [zip_getElem?, range'_getElem? 5 _ i hi, ha]
  have hmem : (s.data.length - 5 + i, a) ∈
      (List.range' (s.data.length - 5) 5).zip (fetchedWindow fa now_min) :=
    mem_of_getElem?_some _ _ _ hpair
  have hznd : (((List.range' (s.data.length - 5) 5).zip
      (fetchedWindow fa now_min)).map Prod.fst).Nodup := by
    rw [List.map_fst_zip _ _ (by simpa using h5f)]
    exact range'_nodup 5 _
  have hfind : (mismatchPairs s (fetchedWindow fa now_min)).find?
      (fun pr => pr.1 == s.data.length - 5 + i) =
      (if mismatchB (s.data.getD (s.data.length - 5 + i) dfltCandle) a
       then some (s.data.length - 5 + i, a) else none) := by
    unfold mismatchPairs
    exact find?_filter_key _ _ _ _ hznd hmem
  have hgetD : s.data.getD (s.data.length - 5 + i) dfltCandle = stored := by
    rw [List.getD_eq_getElem?_getD, hs]
    rfl
  have hbounds : ∀ pr2 ∈ mismatchPairs s (fetchedWindow fa now_min),
      pr2.1 < s.data.length := by
    intro pr2 hpr2
    have hb := mismatchPairs_keys_bounds s _ pr2 hpr2
    omega
  unfold verify_last5_and_fix
  rw [if_neg hcond]
  show ((mismatchPairs s (fetchedWindow fa now_min)).foldl
      (fun d pr => d.set pr.1 pr.2) s.data)[s.data.length - 5 + i]? = _
  rw [foldl_set_getElem? _ _ _ (mismatchPairs_keys_nodup s _ h5f) hbounds]
  rw [hfind, hgetD]
  by_cases hb : ((1 : ℚ) / 1000000000 < |(stored.time : ℚ) - (a.time : ℚ)| ∨
      (1 : ℚ) / 1000000000 < |stored.open_ - a.open_| ∨
      (1 : ℚ) / 1000000000 < |stored.high - a.high| ∨
      (1 : ℚ) / 1000000000 < |stored.low - a.low| ∨
      (1 : ℚ) / 1000000000 < |stored.close - a.close| ∨
      (1 : ℚ) / 1000000000 < |stored.volume - a.volume| ∨
      stored.trades ≠ a.trades)
  · rw [if_pos ((mismatchB_iff stored a).mpr hb), if_pos hb]
  · rw [if_neg (fun hmm => hb ((mismatchB_iff stored a).mp hmm)), if_neg hb, hs]

/-- Witness for the amended C8: the last slot's close differs (15 vs 20),
so the comparison flags it and the slot is replaced by the fetched record. -/
theorem C8_mismatch_comparison_witness :
    (verify_last5_and_fix faClose 100 sVer).data[sVer.data.length - 5 + 4]? =
      some (if ((1 : ℚ) / 1000000000 < |(d5.time : ℚ) - (d5c.time : ℚ)| ∨
                (1 : ℚ) / 1000000000 < |d5.open_ - d5c.open_| ∨
                (1 : ℚ) / 1000000000 < |d5.high - d5c.high| ∨
                (1 : ℚ) / 1000000000 < |d5.low - d5c.low| ∨
                (1 : ℚ) / 1000000000 < |d5.close - d5c.close| ∨
                (1 : ℚ) / 1000000000 < |d5.volume - d5c.volume| ∨
                d5.trades ≠ d5c.trades)
            then d5c else d5) :=
  C8_mismatch_comparison faClose 100 sVer 4 d5c d5 (by decide) (by decide)
    (by decide) rfl rfl

/-- C8 counterexample: a stored record differing from the fetched one only
in the vwap field (7 versus 9, far beyond the 1e-9 tolerance) is NOT
flagged for correction — the mismatch test reads no vwap — and the whole
verification pass leaves the store unchanged. -/
theorem C8_counterexample :
    d5.vwap ≠ d5v.vwap ∧
    (1 : ℚ) / 1000000000 < |d5.vwap - d5v.vwap| ∧
    mismatchB d5 d5v = false ∧
    mismatchPairs sVer faVwap = [] ∧
    verify_last5_and_fix faVwap 100 sVer = sVer := by
  have hm1 : mismatchB d1 d1 = false := by norm_num [mismatchB, neqQ, d1]
  have hm2 : mismatchB d2 d2 = false := by norm_num [mismatchB, neqQ, d2]
  have hm3 : mismatchB d3 d3 = false := by norm_num [mismatchB, neqQ, d3]
  have hm4 : mismatchB d4 d4 = false := by norm_num [mismatchB, neqQ, d4]
  have hm5 : mismatchB d5 d5v = false := by norm_num [mismatchB, neqQ, d5, d5v]
  have h4 : mismatchPairs sVer faVwap = [] := by
    have hr : List.range' (sVer.data.length - 5) 5 = [0, 1, 2, 3, 4] := by decide
    unfold mismatchPairs
    rw [hr]
    show List.filter _ [(0, d1), (1, d2), (2, d3), (3, d4), (4, d5v)] = []
    simp only [List.filter_cons, List.filter_nil]
    simp [sVer, hm1, hm2, hm3, hm4, hm5]
  have hfw : fetchedWindow faVwap 100 = faVwap := by decide
  refine ⟨by decide, by norm_num [d5, d5v], hm5, h4, ?_⟩
  unfold verify_last5_and_fix
  rw [if_neg (by decide), hfw, h4]
  rfl
